import Mathlib

/-!
Verification development for the Bedrock access gateway chat model
(`src/api/models/bedrock.py`).  Python strings are modelled as lists of
characters (`Str`), Python dictionaries holding JSON data as the inductive
`JsonVal`, and the stateful conversion routines of the `BedrockModel` class
as pure functions.  External collaborators (the inference service, the
function-execution service, the retrieval service and object storage) are
passed in as explicit data, matching the narrow interfaces of the spec.
-/

/-- Python `str` values, modelled as lists of characters. -/
abbrev Str := List Char

/-- Coerce a Lean string literal to the `Str` model. -/
def str (s : String) : Str := s.toList

/-- Python `str.lower()` (ASCII behaviour of `Char.toLower`). -/
def lowerStr (s : Str) : Str := s.map Char.toLower

/-- Auxiliary loop of `pySplit`; `acc` holds the reversed current word. -/
def pySplitAux : Str → Str → List Str
  | [], acc => if acc.isEmpty then [] else [acc.reverse]
  | c :: rest, acc =>
    if c.isWhitespace then
      if acc.isEmpty then pySplitAux rest [] else acc.reverse :: pySplitAux rest []
    else pySplitAux rest (c :: acc)

/-- Python `str.split()` with no arguments: split on whitespace runs and
drop empty pieces. -/
def pySplit (s : Str) : List Str := pySplitAux s []

/-- Python substring membership `needle in hay`. -/
def pyIn (needle : Str) : Str → Bool
  | [] => needle.isEmpty
  | c :: rest => needle.isPrefixOf (c :: rest) || pyIn needle rest

/-- Python `str.strip()`: drop whitespace from both ends. -/
def pyStrip (s : Str) : Str :=
  ((s.dropWhile Char.isWhitespace).reverse.dropWhile Char.isWhitespace).reverse

/-- Python f-string rendering of an optional string (`None` prints as
`"None"`). -/
def optStr : Option Str → Str
  | none => str ("None")
  | some s => s

/-!
### JSON values

`json.loads` produces nested dictionaries/lists; `base64.b64decode`
produces Python `bytes`.  Both are covered by one inductive.  JSON numbers
are modelled as integers (no claim depends on float formatting).
-/

inductive JsonVal where
  | null
  | bool (b : Bool)
  | num (n : Int)
  | str (s : Str)
  | arr (xs : List JsonVal)
  | obj (kvs : List (Str × JsonVal))
  | bytes (bs : List Nat)

/-- Ordered-dictionary lookup. -/
def lookupA : List (Str × JsonVal) → Str → Option JsonVal
  | [], _ => none
  | (k', v') :: rest, k => if k' = k then some v' else lookupA rest k

/-- Ordered-dictionary assignment: replace in place if the key exists,
append otherwise (Python `d[k] = v`). -/
def setA : List (Str × JsonVal) → Str → JsonVal → List (Str × JsonVal)
  | [], k, nv => [(k, nv)]
  | (k', v') :: rest, k, nv =>
    if k' = k then (k', nv) :: rest else (k', v') :: setA rest k nv

/-- Python `d[k]` on a JSON value; `none` models `KeyError`/`TypeError`. -/
def objGet (v : JsonVal) (k : Str) : Option JsonVal :=
  match v with
  | .obj kvs => lookupA kvs k
  | _ => none

/-- Python `d.get(k, default)`. -/
def objGetD (v : JsonVal) (k : Str) (d : JsonVal) : JsonVal :=
  (objGet v k).getD d

/-- Python `d[k] = nv` (on non-dict values the write raises; we return the
value unchanged, and every use site has already established dict-ness). -/
def objSet (v : JsonVal) (k : Str) (nv : JsonVal) : JsonVal :=
  match v with
  | .obj kvs => .obj (setA kvs k nv)
  | _ => v

/-- Python `==` between a JSON value and a string literal. -/
def jsonEqStr (v : JsonVal) (s : Str) : Bool :=
  match v with
  | .str t => t = s
  | _ => false

/-- Python truthiness of a JSON value. -/
def pyTruthy : JsonVal → Bool
  | .null => false
  | .bool b => b
  | .num n => n != 0
  | .str s => !s.isEmpty
  | .arr xs => !xs.isEmpty
  | .obj kvs => !kvs.isEmpty
  | .bytes bs => !bs.isEmpty

/-- Value of one base64 alphabet character. -/
def b64Val (c : Char) : Option Nat :=
  if 'A' ≤ c ∧ c ≤ 'Z' then some (c.toNat - 65)
  else if 'a' ≤ c ∧ c ≤ 'z' then some (c.toNat - 97 + 26)
  else if '0' ≤ c ∧ c ≤ '9' then some (c.toNat - 48 + 52)
  else if c = '+' then some 62
  else if c = '/' then some 63
  else none

/-- Decode base64 quartets; `'='` padding is accepted only at the end.
`none` models `binascii.Error`. -/
def b64Quartets : Str → Option (List Nat)
  | [] => some []
  | a :: b :: c :: d :: rest =>
    match b64Val a, b64Val b with
    | some va, some vb =>
      if c = '=' ∧ d = '=' ∧ rest = [] then
        some [va * 4 + vb / 16]
      else if d = '=' ∧ rest = [] then
        match b64Val c with
        | some vc => some [va * 4 + vb / 16, (vb % 16) * 16 + vc / 4]
        | none => none
      else
        match b64Val c, b64Val d with
        | some vc, some vd =>
          (b64Quartets rest).map
            (fun tl => (va * 4 + vb / 16) :: ((vb % 16) * 16 + vc / 4) ::
              ((vc % 4) * 64 + vd) :: tl)
        | _, _ => none
    | _, _ => none
  | _ => none

/-- Python `base64.b64decode` on a string: characters outside the alphabet
are discarded before the padding check; the remaining length must be a
multiple of four. -/
def b64decode (s : Str) : Option (List Nat) :=
  b64Quartets (s.filter (fun c => (b64Val c).isSome || c = '='))

/-- Minimal JSON string escaping used by the `json.dumps` model. -/
def jsonEscape : Str → Str
  | [] => []
  | c :: rest =>
    (if c = '"' then ['\\', '"']
     else if c = '\\' then ['\\', '\\']
     else if c = '\n' then ['\\', 'n']
     else [c]) ++ jsonEscape rest

mutual

/-- Python `json.dumps` with default separators.  `bytes` values are not
JSON-serialisable: `none` models the `TypeError` raised there. -/
def dumps : JsonVal → Option Str
  | .null => some (str ("null"))
  | .bool true => some (str ("true"))
  | .bool false => some (str ("false"))
  | .num n => some (str (toString n))
  | .str s => some ('"' :: jsonEscape s ++ ['"'])
  | .arr xs => (dumpsList xs).map
      (fun ps => '[' :: List.intercalate (str (", ")) ps ++ [']'])
  | .obj kvs => (dumpsObj kvs).map
      (fun ps => Char.ofNat 123 :: List.intercalate (str (", ")) ps ++ [Char.ofNat 125])
  | .bytes _ => none

def dumpsList : List JsonVal → Option (List Str)
  | [] => some []
  | x :: xs =>
    match dumps x, dumpsList xs with
    | some s, some tl => some (s :: tl)
    | _, _ => none

def dumpsObj : List (Str × JsonVal) → Option (List Str)
  | [] => some []
  | (k, v) :: xs =>
    match dumps v, dumpsObj xs with
    | some s, some tl =>
      some (('"' :: jsonEscape k ++ ['"'] ++ str (": ") ++ s) :: tl)
    | _, _ => none

end

mutual

/-- Python `str()` of a parsed JSON value, as used inside f-strings
(single quotes, capitalised constants).  Exact runtime formatting of
`bytes` is approximated; no claim depends on it. -/
def pyStr : JsonVal → Str
  | .null => str ("None")
  | .bool true => str ("True")
  | .bool false => str ("False")
  | .num n => str (toString n)
  | .str s => '\'' :: s ++ ['\'']
  | .arr xs => '[' :: List.intercalate (str (", ")) (pyStrList xs) ++ [']']
  | .obj kvs =>
      Char.ofNat 123 :: List.intercalate (str (", ")) (pyStrObj kvs) ++ [Char.ofNat 125]
  | .bytes bs => str ("b'") ++ (bs.map (fun n => Char.ofNat n)) ++ ['\'']

def pyStrList : List JsonVal → List Str
  | [] => []
  | x :: xs => pyStr x :: pyStrList xs

def pyStrObj : List (Str × JsonVal) → List Str
  | [] => []
  | (k, v) :: xs =>
    ('\'' :: k ++ ['\''] ++ str (": ") ++ pyStr v) :: pyStrObj xs

end

/-- A JSON value used as a Python dictionary key (the envelope contract
produces string keys; other values fall back to their rendering). -/
def jsonAsStr : JsonVal → Str
  | .str s => s
  | v => pyStr v

/-!
### Backend (Converse) messages

A backend content block is one of the dict shapes produced by
`_parse_content_parts`, `_parse_messages` and the retrieval augmentation:
`{text}`, `{image}`, `{document}`, `{toolUse}`, `{toolResult}`.  Image
bytes are carried pre-fetched (`_parse_image` performs the HTTP fetch, an
external collaborator).  Document bytes hold the UTF-8 encoded text,
modelled as the character list itself.
-/

inductive BBlock where
  | text (t : Str)
  | image (format : Str) (data : List Nat)
  | document (format : Str) (name : Str) (data : Str)
  | toolUse (toolUseId : Option Str) (name : Option Str) (input : JsonVal)
  | toolResult (toolUseId : Option Str) (status : Option Str)
      (content : List (Str × JsonVal))

/-- Message content as `_reframe_multi_payloard` receives it: either a raw
string (OpenAI shorthand) or a list of backend content blocks. -/
inductive RContent where
  | s (t : Str)
  | l (bs : List BBlock)

/-- A backend-shaped message: a role plus content. -/
structure BMessage where
  role : Str
  content : RContent

/-- The content blocks a message contributes when merged by the reframer
(string content becomes a single `{text}` block). -/
def contentBlocks : RContent → List BBlock
  | .s t => [.text t]
  | .l bs => bs

/-- `message["content"][0].get("text", "")` on a backend-shaped message
whose content is a block list (the only shape reaching these call sites,
since the reframer always emits block lists). -/
def msgFirstText (m : BMessage) : Str :=
  match m.content with
  | .l (.text t :: _) => t
  | _ => []

/-- Loop of `_reframe_multi_payloard`: `curRole`/`curContent` are the
pending role and accumulated content; a role switch flushes the
accumulator when it is nonempty. -/
def reframeLoop : List BMessage → Str → List BBlock → List BMessage
  | [], curRole, curContent =>
    if curContent.isEmpty then [] else [⟨curRole, .l curContent⟩]
  | m :: rest, curRole, curContent =>
    if m.role = curRole then
      reframeLoop rest curRole (curContent ++ contentBlocks m.content)
    else
      (if curContent.isEmpty then [] else [⟨curRole, .l curContent⟩]) ++
        reframeLoop rest m.role (contentBlocks m.content)

/-- `_reframe_multi_payloard`: merge consecutive same-role messages.  The
initial pending role is `None`, which never equals a message role, so the
first message always starts the first accumulator. -/
def reframe : List BMessage → List BMessage
  | [] => []
  | m :: rest => reframeLoop rest m.role (contentBlocks m.content)

/-- All content blocks of a message sequence, in order. -/
def blocksOf (ms : List BMessage) : List BBlock :=
  (ms.map (fun m => contentBlocks m.content)).flatten

/-- No two adjacent messages share a role. -/
def rolesAlternate : List BMessage → Bool
  | [] => true
  | [_] => true
  | a :: b :: rest => (a.role != b.role) && rolesAlternate (b :: rest)

/-!
### OpenAI-side messages and `_parse_messages`

`ChatRequest.messages` holds the OpenAI message variants plus raw
dictionaries appended by the streaming tool-call continuation.  Image
parts carry their backend block pre-resolved: `_parse_image` (HTTP fetch)
and the modality check are external-collaborator behaviour.  JSON parsing
(`json.loads`) is passed in as a function `parse`; `none` models a raised
`JSONDecodeError`.
-/

inductive OAIPart where
  | text (t : Str)
  | image (resolved : BBlock)
  | other

inductive OAIContent where
  | s (t : Str)
  | parts (ps : List OAIPart)

/-- One entry of `AssistantMessage.tool_calls` (id, function name, raw
JSON argument string). -/
structure ToolCallSpec where
  id : Str
  name : Str
  arguments : Str

inductive OAIMessage where
  | user (content : OAIContent)
  | assistant (content : Option Str) (tool_calls : List ToolCallSpec)
  | tool (tool_call_id : Option Str) (content : JsonVal) (status : Option Str)
      (data_type : Str)
  | system (content : Str)
  | raw (m : BMessage)

/-- Python `str | list[str] | None` for `ChatRequest.stop`. -/
inductive StopSpec where
  | one (s : Str)
  | many (xs : List Str)

/-- The `ChatRequest` fields the chat pipeline reads. -/
structure ChatRequestM where
  model : Str
  messages : List OAIMessage
  temperature : Option Rat
  top_p : Option Rat
  stop : Option StopSpec

/-- `_parse_content_parts`: a plain string becomes one text block; text
parts become text blocks; image parts contribute their (pre-fetched)
image block; all other part kinds are silently skipped. -/
def parseContentParts : OAIContent → List BBlock
  | .s t => [.text t]
  | .parts ps => ps.filterMap (fun p =>
      match p with
      | .text t => some (.text t)
      | .image b => some b
      | .other => none)

/-- The guard-text prefix that triggers thread-poisoning removal in
`_parse_messages`. -/
def poisonText : Str := str ("This prompt goes against Relay Acceptable Use policy.")

/-- One iteration of the `_parse_messages` conversion loop over the
already-converted list `acc`.  `none` models a raised exception
(`IndexError` from `pop()` on empty, `IndexError` on missing
`tool_calls[0]`, or a JSON decode error of the tool-call arguments). -/
def convertStep (parse : Str → Option JsonVal) (acc : List BMessage) :
    OAIMessage → Option (List BMessage)
  | .user c => some (acc ++ [⟨str ("user"), .l (parseContentParts c)⟩])
  | .assistant c tcs =>
    match c with
    | some t =>
      if t ≠ [] then
        if poisonText.isPrefixOf t then
          if acc.isEmpty then none else some acc.dropLast
        else
          some (acc ++ [⟨str ("assistant"), .l (parseContentParts (.s t))⟩])
      else
        match tcs with
        | [] => none
        | tc :: _ =>
          (parse tc.arguments).map (fun input =>
            acc ++ [⟨str ("assistant"), .l [.toolUse (some tc.id) (some tc.name) input]⟩])
    | none =>
      match tcs with
      | [] => none
      | tc :: _ =>
        (parse tc.arguments).map (fun input =>
          acc ++ [⟨str ("assistant"), .l [.toolUse (some tc.id) (some tc.name) input]⟩])
  | .tool tcid c status dt =>
    some (acc ++ [⟨str ("user"),
      .l [.toolResult tcid status
        [(if status.isSome then str ("text") else dt, c)]]⟩])
  | .system _ => some acc
  | .raw m => some (acc ++ [m])

/-- The `_parse_messages` loop starting from converted prefix `acc`. -/
def parseMessagesFrom (parse : Str → Option JsonVal) (acc : List BMessage) :
    List OAIMessage → Option (List BMessage)
  | [] => some acc
  | m :: rest =>
    match convertStep parse acc m with
    | none => none
    | some acc' => parseMessagesFrom parse acc' rest

/-- `_parse_messages` before the final reframing step. -/
def parseMessagesAux (parse : Str → Option JsonVal) (ms : List OAIMessage) :
    Option (List BMessage) :=
  parseMessagesFrom parse [] ms

/-- `_parse_messages`: convert every OpenAI message and reframe. -/
def parseMessages (parse : Str → Option JsonVal) (req : ChatRequestM) :
    Option (List BMessage) :=
  (parseMessagesAux parse req.messages).map reframe

/-- `_parse_system_prompts`: system-role messages only, in order. -/
def parseSystemPrompts (req : ChatRequestM) : List Str :=
  req.messages.filterMap (fun m =>
    match m with
    | .system c => some c
    | _ => none)

/-!
### `_parse_request` and `_invoke_bedrock`

The tool schema loaded from object storage (`get_tools`) is passed in as
data.  `get_tools_config` strips the internal dispatch target
(`lambda_arn`) from each `toolSpec` before transmission; the public spec
type has no such field, so removal is by construction.
-/

/-- One `toolSpec` entry of the object-storage tool schema. -/
structure ToolSpec where
  name : Str
  description : Str
  inputSchema : JsonVal
  lambda_arn : Str

/-- A `toolSpec` entry as transmitted to the backend (no dispatch
target). -/
structure PubToolSpec where
  name : Str
  description : Str
  inputSchema : JsonVal

/-- `get_tools_config`: deep-copy the cached schema and delete each
tool's `lambda_arn`. -/
def toolsConfig (tools : List ToolSpec) : List PubToolSpec :=
  tools.map (fun t => ⟨t.name, t.description, t.inputSchema⟩)

/-- `get_tool_map`: tool name to dispatch target. -/
def toolMap (tools : List ToolSpec) : List (Str × Str) :=
  tools.map (fun t => (t.name, t.lambda_arn))

structure InferenceConfig where
  temperature : Option Rat
  maxTokens : Nat
  topP : Option Rat
  stopSequences : Option (List Str)

/-- The extended-reasoning option attached under
`additionalModelRequestFields` for the `@thinking` directive. -/
structure ThinkingCfg where
  thinkingType : Str
  budget_tokens : Nat
  deriving DecidableEq

def thinkingEnabled : ThinkingCfg := ⟨str ("enabled"), 10000⟩

structure GuardCfg where
  guardrailIdentifier : Str
  guardrailVersion : Str

/-- A citation entry of the retrieval augmenter's side list. -/
structure RefEntry where
  title : Str
  url : Str

/-- The backend invocation payload assembled by `_parse_request` and
completed by `_invoke_bedrock` (plus the side list of citations the
latter returns). -/
structure Payload where
  modelId : Str
  messages : List BMessage
  system : List Str
  inferenceConfig : InferenceConfig
  toolConfig : Option (List PubToolSpec)
  guardrailConfig : Option GuardCfg
  additionalModelRequestFields : Option ThinkingCfg
  references : List RefEntry

/-- The payload `_parse_request` builds from converted messages
(`maxTokens` by model-substring lookup, `@tools`/`@thinking` directive
scans over each message's first content block). -/
def buildPayload (tools : List ToolSpec) (req : ChatRequestM)
    (msgs : List BMessage) : Payload :=
  let tokens : Nat :=
    if pyIn (str ("llama4")) req.model then 8192
    else if pyIn (str ("claude-3-7")) req.model then 131072
    else 32768
  let stopSeqs : Option (List Str) :=
    match req.stop with
    | none => none
    | some (.one s) => some [s]
    | some (.many xs) => some xs
  let anyTools := msgs.any (fun m => pyIn (str ("@tools")) (msgFirstText m))
  let anyThinking := msgs.any (fun m => pyIn (str ("@thinking")) (msgFirstText m))
  { modelId := req.model
    messages := msgs
    system := parseSystemPrompts req
    inferenceConfig :=
      { temperature := req.temperature
        maxTokens := tokens
        topP := if anyThinking then none else req.top_p
        stopSequences := stopSeqs }
    toolConfig := if anyTools then some (toolsConfig tools) else none
    guardrailConfig := none
    additionalModelRequestFields := none
    references := [] }

/-- `_parse_request`: convert and reframe the messages, then build the
payload. -/
def parseRequest (parse : Str → Option JsonVal) (tools : List ToolSpec)
    (req : ChatRequestM) : Option Payload :=
  match parseMessages parse req with
  | none => none
  | some msgs => some (buildPayload tools req msgs)

/-- A knowledge base visible to `_invoke_bedrock`, together with the
ranked results the external retrieval service returns for this turn's
query. -/
structure RResult where
  score : Rat
  title : Option Str
  uri : Str
  text : Str

structure KB where
  name : Str
  results : List RResult

/-- The relevance-score threshold `.5` of the retrieval loop, written as
a raw rational so that concrete instances reduce in the kernel. -/
def halfRat : Rat := ⟨1, 2, by decide, by decide⟩

/-- Insert-or-overwrite for the title-keyed dictionaries accumulated by
the retrieval loop (Python dicts keep first-insertion order). -/
def assocPut {α : Type} (k : Str) (v : α) : List (Str × α) → List (Str × α)
  | [] => [(k, v)]
  | (k', v') :: rest => if k' = k then (k', v) :: rest else (k', v') :: assocPut k v rest

/-- The score-filtered accumulation loop over one knowledge base's
retrieval results: keep rows scoring at least 0.5 that carry a document
title, keyed by title (later rows overwrite earlier ones). -/
def kbCollect (st : List (Str × Str) × List (Str × RefEntry))
    (results : List RResult) : List (Str × Str) × List (Str × RefEntry) :=
  results.foldl (fun st2 row =>
    if halfRat ≤ row.score then
      match row.title with
      | some t => (assocPut t (pyStrip row.text) st2.1, assocPut t ⟨t, row.uri⟩ st2.2)
      | none => st2
    else st2) st

/-- The document blocks appended for the accumulated reference data: one
named block per document when at most five matched, otherwise a single
combined block.  (In the per-document branch the source joins the
characters of the text with newlines — `"\n".join(rows)` over a string —
which is reproduced faithfully here.) -/
def kbDocBlocks (rd : List (Str × Str)) : List BBlock :=
  if rd.length ≤ 5 then
    rd.map (fun p =>
      .document (str ("txt")) p.1
        (List.intercalate (str ("\n")) (p.2.map (fun c => [c]))))
  else
    [.document (str ("txt")) (str ("combined"))
      (List.intercalate (str ("\n")) (rd.map (fun p => p.2)))]

/-- Append blocks to the content of the last message
(`args["messages"][-1]["content"].append`); call sites have a nonempty
message list with block-list content. -/
def appendLastContent (msgs : List BMessage) (bs : List BBlock) : List BMessage :=
  match msgs.getLast? with
  | none => msgs
  | some m =>
    msgs.dropLast ++
      [⟨m.role, match m.content with
        | .l xs => .l (xs ++ bs)
        | .s t => .s t⟩]

/-- One iteration of the knowledge-base loop in `_invoke_bedrock`: when
the message names the base with an `@name` token, fold its results into
the (cross-base) accumulators and append the resulting document blocks to
the latest message. -/
def kbStep (message : Str)
    (st : List (Str × Str) × List (Str × RefEntry) × List BMessage)
    (kb : KB) : List (Str × Str) × List (Str × RefEntry) × List BMessage :=
  if (pySplit message).contains ('@' :: kb.name) then
    let col := kbCollect (st.1, st.2.1) kb.results
    (col.1, col.2, appendLastContent st.2.2 (kbDocBlocks col.1))
  else st

/-- `_invoke_bedrock` up to the backend call: parse the request, read the
latest message's leading text, run the retrieval-augmentation loop,
attach the guardrail configuration (from the environment) and the
extended-reasoning option (`@thinking` token in the latest message's
leading text).  The returned payload is what `converse`/`converse_stream`
receives, along with the citation side list. -/
def invokeArgs (parse : Str → Option JsonVal) (tools : List ToolSpec)
    (kbs : List KB) (guard : Option GuardCfg) (req : ChatRequestM) :
    Option Payload :=
  match parseRequest parse tools req with
  | none => none
  | some base =>
    match base.messages.getLast? with
    | none => none
    | some lastMsg =>
      let message := msgFirstText lastMsg
      let st := kbs.foldl (kbStep message) ([], [], base.messages)
      some { base with
        messages := st.2.2
        guardrailConfig := guard
        additionalModelRequestFields :=
          if (pySplit message).contains (str ("@thinking")) then some thinkingEnabled
          else none
        references := st.2.1.map (fun p => p.2) }

/-!
### Tool orchestration: envelope interpretation

`chat` (lines 286-302) and `chat_stream` (lines 388-397) interpret the
function-execution result envelope identically; the shared logic is
modelled once.  The envelope is the parsed JSON of the execution
service's response payload.
-/

/-- The in-place mutation
`content["source"]["bytes"] = base64.b64decode(results["results"]["source"]["bytes"])`
performed when `data_type == "image"`; `none` models the exception raised
when the path is missing or decoding fails. -/
def imageDecodeInPlace (rv : JsonVal) : Option JsonVal :=
  match objGet rv (str ("source")) with
  | some src =>
    match objGet src (str ("bytes")) with
    | some (.str b) =>
      (b64decode b).map (fun bs =>
        objSet rv (str ("source")) (objSet src (str ("bytes")) (.bytes bs)))
    | _ => none
  | none => none

/-- The `content` computed from a successful envelope: wrap under a
`results` key when `data_type` is `"json"` or absent; otherwise the raw
`results` value, base64-decoding the image byte payload in place when
`data_type` is `"image"`. -/
def toolSuccessContent (results : JsonVal) : Option JsonVal :=
  if jsonEqStr (objGetD results (str ("data_type")) (.str (str ("json")))) (str ("json")) then
    (objGet results (str ("results"))).map
      (fun rv => .obj [(str ("results"), rv)])
  else
    match objGet results (str ("results")) with
    | none => none
    | some rv =>
      if jsonEqStr (objGetD results (str ("data_type")) .null) (str ("image")) then
        imageDecodeInPlace rv
      else some rv

/-- The tool-result `content` and `status` derived from the envelope:
on failure the envelope's `message` with status `"error"`, on success the
`toolSuccessContent` with no status.  `none` models a raised
`KeyError`. -/
def toolResultPayload (results : JsonVal) : Option (JsonVal × Option Str) :=
  match objGet results (str ("success")) with
  | none => none
  | some sv =>
    if pyTruthy sv then
      match toolSuccessContent results with
      | none => none
      | some c => some (c, none)
    else
      match objGet results (str ("message")) with
      | none => none
      | some m => some (m, some (str ("error")))

/-!
### `_create_response` (non-streaming assembly)
-/

structure RespToolCall where
  id : Option Str
  name : Option Str
  arguments : Option Str

/-- The generic response message built by `_create_response`. -/
structure RespMsg where
  role : Str
  content : Option Str
  tool_calls : List RespToolCall

/-- The message part of `_create_response`: on a `tool_use` finish reason
collect every `toolUse` block as a tool call (content `None`); otherwise
the body is the first content block's `text` when it has one, else the
empty string. -/
def createResponseMessage (content : List BBlock) (finish : Option Str) : RespMsg :=
  if finish = some (str ("tool_use")) then
    { role := str ("assistant")
      content := none
      tool_calls := content.filterMap (fun b =>
        match b with
        | .toolUse tid tname input => some ⟨tid, tname, dumps input⟩
        | _ => none) }
  else
    { role := str ("assistant")
      content := some (match content with
        | .text t :: _ => t
        | _ => [])
      tool_calls := [] }

/-- The text of the first `text` block anywhere in the content list (the
spec's reading of the response body), empty when no text block exists.
Modelled from the spec: used only to compare against the source's
behaviour. -/
def firstTextBlock : List BBlock → Str
  | [] => []
  | .text t :: _ => t
  | _ :: rest => firstTextBlock rest

/-!
### `_convert_finish_reason`
-/

/-- The fixed finish-reason table, applied to the lower-cased reason;
unknown reasons pass through unchanged. -/
def finishReasonMapping (s : Str) : Str :=
  if s = str ("tool_use") then str ("tool_calls")
  else if s = str ("finished") then str ("stop")
  else if s = str ("end_turn") then str ("stop")
  else if s = str ("max_tokens") then str ("length")
  else if s = str ("stop_sequence") then str ("stop")
  else if s = str ("complete") then str ("stop")
  else if s = str ("content_filtered") then str ("content_filter")
  else s

/-- `_convert_finish_reason`: `if finish_reason:` is Python truthiness,
so both `None` and the empty string yield `None`. -/
def convertFinishReason : Option Str → Option Str
  | none => none
  | some s => if s.isEmpty then none else some (finishReasonMapping (lowerStr s))

/-!
### `chat_stream`: the `tool_calls` terminal branch

When a streamed chunk carries finish reason `tool_calls` (lines 354-445),
the generator either terminates with a synthetic parse-failure delta, or
invokes the execution service, optionally surfaces the tool result,
terminates the current leg and recurses on a continuation request.  The
branch is the entire remainder of the outward stream for the current leg,
so its value fully describes what follows the triggering chunk.  The
`lambda_client.invoke` transport and payload read are external; `lambdaRaw`
is the decoded response payload string.
-/

/-- One outward unit of `chat_stream`: a delta chunk (role, content,
finish reason), or the `[DONE]` terminator. -/
inductive StreamEvent where
  | chunk (role : Option Str) (content : Option Str) (finish : Option Str)
  | done
  deriving DecidableEq

/-- The synthetic assistant-text content emitted when the accumulated
tool arguments fail to parse as JSON. -/
def parseFailContent (toolName : Option Str) (joined : Str) : Str :=
  str ("\n```text\nAttempted to call tool ") ++ optStr toolName ++
    str (" with arguments: ") ++ joined ++
    str ("\nI was unable to parse the JSON.```\n")

/-- The synthetic assistant-text content of the generic exception handler
of the tool branch (the exception's own rendering depends on the Python
runtime and is not modelled; no claim depends on it). -/
def invokeFailContent (toolName : Option Str) (functionArgs : JsonVal)
    (raw : Str) : Str :=
  str ("\n```text\nAttempted to call tool ") ++ optStr toolName ++
    str (" with arguments: ") ++ pyStr functionArgs ++
    str ("\nI got an exception ") ++ str (" and function output ") ++ raw ++
    str (".```\n")

/-- The synthetic assistant-text delta surfacing a successful tool result
(fenced with the declared rendering). -/
def toolYieldContent (md : JsonVal) (rv : JsonVal) : Str :=
  str ("\n```") ++ pyStr md ++ str ("\n") ++ pyStr rv ++ str ("\n```\n")

/-- Everything `chat_stream` produces from the `tool_calls` branch
onwards: emitted events, the number of function-execution invocations,
and the continuation request recursed on (if any). -/
structure ToolBranchOutcome where
  events : List StreamEvent
  lambdaCalls : Nat
  continuation : Option ChatRequestM

/-- The exception-handler outcome of the tool branch. -/
def toolBranchExc (toolName : Option Str) (functionArgs : JsonVal)
    (raw : Str) : ToolBranchOutcome :=
  { events := [.chunk (some (str ("assistant")))
      (some (invokeFailContent toolName functionArgs raw)) (some (str ("stop"))),
      .done]
    lambdaCalls := 1
    continuation := none }

/-- The `tool_calls` branch of `chat_stream` (lines 354-445).  `parse` is
`json.loads`; `lambdaRaw` is the decoded execution-service response
payload; `toolArgs` is the accumulated argument-fragment list; `req` is
the current chat request. -/
def streamToolCallsBranch (parse : Str → Option JsonVal) (lambdaRaw : Str)
    (req : ChatRequestM) (toolName toolUseId : Option Str)
    (toolArgs : List Str) : ToolBranchOutcome :=
  let joined := toolArgs.flatten
  match (if toolArgs.isEmpty then some (JsonVal.arr []) else parse joined) with
  | none =>
    { events := [.chunk (some (str ("assistant")))
        (some (parseFailContent toolName joined)) (some (str ("stop"))),
        .done]
      lambdaCalls := 0
      continuation := none }
  | some functionArgs =>
    match parse lambdaRaw with
    | none => toolBranchExc toolName functionArgs lambdaRaw
    | some results =>
      match toolResultPayload results with
      | none => toolBranchExc toolName functionArgs lambdaRaw
      | some (content, status) =>
        let input := if toolArgs.isEmpty then JsonVal.obj [] else functionArgs
        let contReq : ChatRequestM :=
          { req with messages := req.messages ++
              [.raw ⟨str ("assistant"), .l [.toolUse toolUseId toolName input]⟩,
               .tool toolUseId content status
                 (jsonAsStr (objGetD results (str ("data_type")) (.str (str ("json")))))] }
        let md := objGetD results (str ("markdown_format")) (.str (str ("json")))
        -- `content` aliases `results["results"]` in every non-"json"
        -- `data_type` branch, so the in-place image mutation is visible
        -- through `results["results"]` from here on.
        let rvNow : Option JsonVal :=
          if jsonEqStr (objGetD results (str ("data_type")) (.str (str ("json"))))
              (str ("json")) then
            objGet results (str ("results"))
          else some content
        let noYield : ToolBranchOutcome :=
          { events := [.done], lambdaCalls := 1, continuation := some contReq }
        if pyTruthy (objGetD results (str ("success")) (.bool false)) then
          match rvNow with
          | none => toolBranchExc toolName functionArgs lambdaRaw
          | some rv =>
            -- both yield paths run the log statement, whose f-string
            -- serialises `results["results"]` (raising on `bytes`)
            match dumps rv with
            | none => toolBranchExc toolName functionArgs lambdaRaw
            | some s =>
              if jsonEqStr md (str ("json")) = false ∨ s.length < 4000 then
                { events := [.chunk (some (str ("assistant")))
                    (some (toolYieldContent md rv)) (some (str ("stop"))), .done]
                  lambdaCalls := 1
                  continuation := some contReq }
              else noYield
        else noYield

/-!
### Auxiliary predicates, projections and concrete instances
-/

/-- A message whose content is a nonempty block list (the backend shape
with at least one block). -/
def hasBlockList (m : BMessage) : Bool :=
  match m.content with
  | .l bs => !bs.isEmpty
  | .s _ => false

/-- The name of a document block (empty for other blocks). -/
def docName : BBlock → Str
  | .document _ n _ => n
  | _ => []

def payloadThinkingOf (o : Option Payload) : Option (Option ThinkingCfg) :=
  o.map (fun p => p.additionalModelRequestFields)

def payloadTopPOf (o : Option Payload) : Option (Option Rat) :=
  o.map (fun p => p.inferenceConfig.topP)

def payloadToolConfigOf (o : Option Payload) : Option (Option (List PubToolSpec)) :=
  o.map (fun p => p.toolConfig)

/-- Claim-side reading (modelled from the spec): the latest user message's
text carries `tok` as a whitespace-delimited directive token. -/
def latestUserHasToken (tok : Str) (req : ChatRequestM) : Bool :=
  match req.messages.reverse.find? (fun m =>
      match m with
      | .user _ => true
      | _ => false) with
  | some (.user (.s t)) => (pySplit t).contains tok
  | some (.user (.parts ps)) => ps.any (fun p =>
      match p with
      | .text t => (pySplit t).contains tok
      | _ => false)
  | _ => false

/-- Claim-side reading (modelled from the spec): the latest user message's
content contains `tok` (as a substring of some text part). -/
def latestUserContainsToken (tok : Str) (req : ChatRequestM) : Bool :=
  match req.messages.reverse.find? (fun m =>
      match m with
      | .user _ => true
      | _ => false) with
  | some (.user (.s t)) => pyIn tok t
  | some (.user (.parts ps)) => ps.any (fun p =>
      match p with
      | .text t => pyIn tok t
      | _ => false)
  | _ => false

/-- A `json.loads` stub for concrete instances whose strings are never
valid JSON. -/
def parseNone : Str → Option JsonVal := fun _ => none

/-- Concrete chat request used by witnesses of the streaming branch. -/
def reqW : ChatRequestM := ⟨str ("m"), [], none, none, none⟩

/-- Concrete chat request: the latest user message carries `@thinking`,
but the conversation ends with an assistant message. -/
def reqC6 : ChatRequestM :=
  ⟨str ("m"),
   [.user (.s (str ("@thinking hi"))), .assistant (some (str ("ok"))) []],
   none, some 1, none⟩

/-- Concrete chat request: the latest user message carries `@tools` in its
second text part. -/
def reqC7 : ChatRequestM :=
  ⟨str ("m"),
   [.user (.parts [.text (str ("hello")), .text (str ("@tools do x"))])],
   none, some 1, none⟩

/-- Concrete chat request ending in a user message with the `@thinking`
token. -/
def reqT6 : ChatRequestM :=
  ⟨str ("m"), [.user (.s (str ("@thinking hi")))], none, some 1, none⟩

/-- Concrete chat request ending in a user message with the `@tools`
token. -/
def reqT7 : ChatRequestM :=
  ⟨str ("m"), [.user (.s (str ("@tools hi")))], none, some 1, none⟩

/-- Concrete tool schema with one tool. -/
def toolsW : List ToolSpec := [⟨str ("t"), str ("d"), .null, str ("arn")⟩]

/-- Concrete knowledge base with one result above and one below the
relevance threshold. -/
def kbW : KB :=
  ⟨str ("docs"),
   [⟨⟨3, 4, by decide, by decide⟩, some (str ("A")), str ("u1"), str (" a ")⟩,
    ⟨⟨1, 4, by decide, by decide⟩, some (str ("B")), str ("u2"), str ("b")⟩]⟩

/-!
### Lemmas and claim theorems
-/

theorem isPrefixOf_append (l m : Str) : l.isPrefixOf (l ++ m) = true := by
  induction l with
  | nil => simp [List.isPrefixOf]
  | cons c rest ih => simp [List.isPrefixOf, ih]

theorem pyIn_of_isPrefixOf (needle hay : Str) (h : needle.isPrefixOf hay = true) :
    pyIn needle hay = true := by
  cases hay with
  | nil =>
    cases needle with
    | nil => rfl
    | cons c cs => simp [List.isPrefixOf] at h
  | cons c rest => simp [pyIn, h]

theorem pyIn_nil_of_isEmpty (needle : Str) (h : needle.isEmpty = true) :
    pyIn needle [] = true := h

theorem pyIn_cons (needle : Str) (c : Char) (rest : Str)
    (h : pyIn needle rest = true) : pyIn needle (c :: rest) = true := by
  simp [pyIn, h]

theorem pyIn_append_left (needle pre hay : Str) (h : pyIn needle hay = true) :
    pyIn needle (pre ++ hay) = true := by
  induction pre with
  | nil => simpa using h
  | cons c rest ih => simpa using pyIn_cons needle c (rest ++ hay) ih

/-- Every word produced by `pySplitAux s acc` occurs as a substring of
`acc.reverse ++ s`. -/
theorem pyIn_of_mem_pySplitAux (w : Str) :
    ∀ (s acc : Str), w ∈ pySplitAux s acc → pyIn w (acc.reverse ++ s) = true := by
  intro s
  induction s with
  | nil =>
    intro acc hm
    by_cases hacc : acc.isEmpty
    · simp [pySplitAux, hacc] at hm
    · simp [pySplitAux, hacc] at hm
      subst hm
      exact pyIn_of_isPrefixOf _ _ (isPrefixOf_append acc.reverse [])
  | cons c rest ih =>
    intro acc hm
    by_cases hws : c.isWhitespace
    · by_cases hacc : acc.isEmpty
      · simp [pySplitAux, hws, hacc] at hm
        have := ih [] hm
        simp at this
        exact pyIn_append_left w acc.reverse (c :: rest) (pyIn_cons w c rest this)
      · simp [pySplitAux, hws, hacc] at hm
        rcases hm with hm | hm
        · subst hm
          exact pyIn_of_isPrefixOf _ _ (isPrefixOf_append acc.reverse (c :: rest))
        · have := ih [] hm
          simp at this
          exact pyIn_append_left w acc.reverse (c :: rest) (pyIn_cons w c rest this)
    · simp [pySplitAux, hws] at hm
      have := ih (c :: acc) hm
      simpa using this

/-- A word of `pySplit s` is a substring of `s` (a whitespace-delimited
token occurrence is in particular a substring occurrence). -/
theorem pyIn_of_mem_pySplit (w s : Str) (h : w ∈ pySplit s) :
    pyIn w s = true := by
  have := pyIn_of_mem_pySplitAux w s [] h
  simpa using this

theorem blocksOf_reframeLoop (ms : List BMessage) :
    ∀ (r : Str) (cur : List BBlock),
      blocksOf (reframeLoop ms r cur) = cur ++ blocksOf ms := by
  induction ms with
  | nil =>
    intro r cur
    by_cases hc : cur.isEmpty
    · have : cur = [] := List.isEmpty_iff.mp hc
      simp [reframeLoop, hc, this, blocksOf]
    · simp [reframeLoop, hc, blocksOf, contentBlocks]
  | cons m rest ih =>
    intro r cur
    simp only [reframeLoop]
    by_cases hr : m.role = r
    · rw [if_pos hr, ih]
      simp [blocksOf, List.append_assoc]
    · rw [if_neg hr]
      by_cases hc : cur.isEmpty
      · have hnil : cur = [] := List.isEmpty_iff.mp hc
        rw [if_pos hc, List.nil_append, ih, hnil]
        simp [blocksOf]
      · rw [if_neg hc]
        have hsplit :
            blocksOf ([⟨r, .l cur⟩] ++ reframeLoop rest m.role (contentBlocks m.content)) =
              cur ++ blocksOf (reframeLoop rest m.role (contentBlocks m.content)) := by
          simp [blocksOf, contentBlocks]
        rw [List.singleton_append] at hsplit ⊢
        rw [hsplit, ih]
        simp [blocksOf]

/-- Content preservation of the reframer: the output's concatenated
content blocks equal the inputs' concatenated content blocks, in order. -/
theorem blocksOf_reframe (ms : List BMessage) :
    blocksOf (reframe ms) = blocksOf ms := by
  cases ms with
  | nil => rfl
  | cons m rest =>
    show blocksOf (reframeLoop rest m.role (contentBlocks m.content)) = _
    rw [blocksOf_reframeLoop]
    simp [blocksOf]

/-- When the pending accumulator and every remaining message contribute at
least one content block, the reframer's output starts with a message
carrying the pending role and alternates throughout. -/
theorem reframeLoop_alternates (ms : List BMessage) :
    ∀ (r : Str) (cur : List BBlock), cur ≠ [] →
      (∀ m ∈ ms, contentBlocks m.content ≠ []) →
      ∃ cur' tl, reframeLoop ms r cur = ⟨r, .l cur'⟩ :: tl ∧
        rolesAlternate (⟨r, .l cur'⟩ :: tl) = true := by
  induction ms with
  | nil =>
    intro r cur hcur _
    refine ⟨cur, [], ?_, rfl⟩
    simp [reframeLoop, List.isEmpty_iff, hcur]
  | cons m rest ih =>
    intro r cur hcur hms
    simp only [reframeLoop]
    by_cases hr : m.role = r
    · rw [if_pos hr]
      exact ih r (cur ++ contentBlocks m.content) (by simp [hcur]) (fun x hx => hms x (by simp [hx]))
    · rw [if_neg hr]
      have hne : ¬cur.isEmpty = true := by simpa [List.isEmpty_iff] using hcur
      rw [if_neg hne]
      obtain ⟨cur', tl, heq, halt⟩ :=
        ih m.role (contentBlocks m.content) (hms m (by simp)) (fun x hx => hms x (by simp [hx]))
      refine ⟨cur, ⟨m.role, .l cur'⟩ :: tl, by rw [heq, List.singleton_append], ?_⟩
      have hbne : (r != m.role) = true := by
        simp [bne_iff_ne]
        exact fun h => hr h.symm
      simp only [rolesAlternate]
      rw [halt]
      simp [hbne]

/-- When every input message has a nonempty content-block list, the
reframer's output never has two adjacent entries with equal role. -/
theorem reframe_alternates (ms : List BMessage)
    (h : ∀ m ∈ ms, contentBlocks m.content ≠ []) :
    rolesAlternate (reframe ms) = true := by
  cases ms with
  | nil => rfl
  | cons m rest =>
    obtain ⟨cur', tl, heq, halt⟩ :=
      reframeLoop_alternates rest m.role (contentBlocks m.content)
        (h m (by simp)) (fun x hx => h x (by simp [hx]))
    show rolesAlternate (reframeLoop rest m.role (contentBlocks m.content)) = true
    rw [heq]
    exact halt

/-- On an already-alternating suffix whose messages all carry nonempty
block lists, the loop flushes the pending accumulator and reproduces the
suffix unchanged. -/
theorem reframeLoop_of_alternating (ms : List BMessage) :
    ∀ (r : Str) (cur : List BBlock), cur ≠ [] →
      (∀ m ∈ ms, ∃ bs, m.content = .l bs ∧ bs ≠ []) →
      rolesAlternate (⟨r, .l cur⟩ :: ms) = true →
      reframeLoop ms r cur = ⟨r, .l cur⟩ :: ms := by
  induction ms with
  | nil =>
    intro r cur hcur _ _
    simp [reframeLoop, List.isEmpty_iff, hcur]
  | cons m rest ih =>
    intro r cur hcur hms halt
    obtain ⟨bs, hbs, hbsne⟩ := hms m (by simp)
    simp only [rolesAlternate, Bool.and_eq_true] at halt
    have hrole : m.role ≠ r := by
      have := halt.1
      simp only [bne_iff_ne, ne_eq] at this
      exact fun h => this h.symm
    simp only [reframeLoop]
    rw [if_neg hrole]
    have hne : ¬cur.isEmpty = true := by simpa [List.isEmpty_iff] using hcur
    rw [if_neg hne]
    have hm : m = ⟨m.role, .l bs⟩ := by
      cases m
      simp_all
    have htail : rolesAlternate (⟨m.role, RContent.l bs⟩ :: rest) = true := by
      rw [← hm]
      exact halt.2
    have hstep := ih m.role bs hbsne (fun x hx => hms x (by simp [hx])) htail
    rw [hbs]
    simp only [contentBlocks]
    rw [hstep, ← hm, List.singleton_append]

/-- The reframer is the identity on a strictly alternating sequence of
backend-shaped messages with nonempty content-block lists. -/
theorem reframe_of_alternating (ms : List BMessage)
    (hms : ∀ m ∈ ms, ∃ bs, m.content = .l bs ∧ bs ≠ [])
    (halt : rolesAlternate ms = true) :
    reframe ms = ms := by
  cases ms with
  | nil => rfl
  | cons m rest =>
    obtain ⟨bs, hbs, hbsne⟩ := hms m (by simp)
    have hm : m = ⟨m.role, .l bs⟩ := by
      cases m
      simp_all
    have halt' : rolesAlternate (⟨m.role, RContent.l bs⟩ :: rest) = true := by
      rw [← hm]
      exact halt
    show reframeLoop rest m.role (contentBlocks m.content) = m :: rest
    rw [hbs]
    simp only [contentBlocks]
    rw [reframeLoop_of_alternating rest m.role bs hbsne
      (fun x hx => hms x (by simp [hx])) halt', ← hm]

/-- C1 (amended): for every input sequence of backend-shaped messages
(no restriction), the concatenation of all content blocks across the
output of `_reframe_multi_payloard` equals the concatenation of the
inputs' content blocks in original order; and whenever every message
contributes a nonempty content-block list, the output never contains two
adjacent entries with equal role. -/
theorem reframe_alternation_and_content (ms : List BMessage) :
    blocksOf (reframe ms) = blocksOf ms ∧
    (ms.all (fun m => !(contentBlocks m.content).isEmpty) = true →
      rolesAlternate (reframe ms) = true) := by
  refine ⟨blocksOf_reframe ms, fun h => ?_⟩
  have h' : ∀ m ∈ ms, contentBlocks m.content ≠ [] := by
    intro m hm
    have := List.all_eq_true.mp h m hm
    simpa [List.isEmpty_iff] using this
  exact reframe_alternates ms h'

theorem reframe_alternation_and_content_witness :
    blocksOf (reframe
      [⟨str ("user"), .l [.text (str ("a"))]⟩,
       ⟨str ("user"), .l [.text (str ("b"))]⟩,
       ⟨str ("assistant"), .l [.text (str ("c"))]⟩]) =
      blocksOf
      [⟨str ("user"), .l [.text (str ("a"))]⟩,
       ⟨str ("user"), .l [.text (str ("b"))]⟩,
       ⟨str ("assistant"), .l [.text (str ("c"))]⟩] ∧
    (([⟨str ("user"), .l [.text (str ("a"))]⟩,
       ⟨str ("user"), .l [.text (str ("b"))]⟩,
       ⟨str ("assistant"), .l [.text (str ("c"))]⟩] : List BMessage).all
        (fun m => !(contentBlocks m.content).isEmpty) = true) ∧
    rolesAlternate (reframe
      [⟨str ("user"), .l [.text (str ("a"))]⟩,
       ⟨str ("user"), .l [.text (str ("b"))]⟩,
       ⟨str ("assistant"), .l [.text (str ("c"))]⟩]) = true :=
  ⟨(reframe_alternation_and_content
      [⟨str ("user"), .l [.text (str ("a"))]⟩,
       ⟨str ("user"), .l [.text (str ("b"))]⟩,
       ⟨str ("assistant"), .l [.text (str ("c"))]⟩]).1,
   rfl,
   (reframe_alternation_and_content
      [⟨str ("user"), .l [.text (str ("a"))]⟩,
       ⟨str ("user"), .l [.text (str ("b"))]⟩,
       ⟨str ("assistant"), .l [.text (str ("c"))]⟩]).2 rfl⟩

/-- C1 counterexample: a message with an empty content-block list swallows
a role switch, so the output of `_reframe_multi_payloard` carries two
adjacent entries with equal role (content is still preserved). -/
theorem reframe_alternation_cx :
    reframe
      [⟨str ("user"), .l [.text (str ("a"))]⟩,
       ⟨str ("assistant"), .l []⟩,
       ⟨str ("user"), .l [.text (str ("b"))]⟩] =
      [⟨str ("user"), .l [.text (str ("a"))]⟩,
       ⟨str ("user"), .l [.text (str ("b"))]⟩] ∧
    rolesAlternate (reframe
      [⟨str ("user"), .l [.text (str ("a"))]⟩,
       ⟨str ("assistant"), .l []⟩,
       ⟨str ("user"), .l [.text (str ("b"))]⟩]) = false :=
  ⟨rfl, rfl⟩

/-- C9 (amended): `_reframe_multi_payloard` is the identity on every
sequence of backend-shaped messages (nonempty content-block lists) that
is already strictly role-alternating, hence idempotent there. -/
theorem reframe_identity_on_alternating (ms : List BMessage)
    (hshape : ms.all hasBlockList = true)
    (halt : rolesAlternate ms = true) :
    reframe ms = ms := by
  apply reframe_of_alternating ms _ halt
  intro m hm
  have := List.all_eq_true.mp hshape m hm
  cases hmc : m.content with
  | s t => rw [hasBlockList, hmc] at this; exact absurd this (by simp)
  | l bs =>
    refine ⟨bs, rfl, ?_⟩
    rw [hasBlockList, hmc] at this
    simpa [List.isEmpty_iff] using this

theorem reframe_identity_on_alternating_witness :
    (([⟨str ("user"), .l [.text (str ("a"))]⟩,
       ⟨str ("assistant"), .l [.text (str ("b"))]⟩] : List BMessage).all
        hasBlockList = true) ∧
    rolesAlternate
      [⟨str ("user"), .l [.text (str ("a"))]⟩,
       ⟨str ("assistant"), .l [.text (str ("b"))]⟩] = true ∧
    reframe
      [⟨str ("user"), .l [.text (str ("a"))]⟩,
       ⟨str ("assistant"), .l [.text (str ("b"))]⟩] =
      [⟨str ("user"), .l [.text (str ("a"))]⟩,
       ⟨str ("assistant"), .l [.text (str ("b"))]⟩] :=
  ⟨rfl, rfl,
    reframe_identity_on_alternating
      [⟨str ("user"), .l [.text (str ("a"))]⟩,
       ⟨str ("assistant"), .l [.text (str ("b"))]⟩] rfl rfl⟩

/-- C9 counterexample: a single message with an empty content-block list
is trivially alternating, yet the reframer drops it, so reframing is not
the identity there. -/
theorem reframe_identity_cx :
    rolesAlternate [(⟨str ("user"), .l []⟩ : BMessage)] = true ∧
    reframe [(⟨str ("user"), .l []⟩ : BMessage)] ≠
      [(⟨str ("user"), .l []⟩ : BMessage)] := by
  refine ⟨rfl, ?_⟩
  show ([] : List BMessage) ≠ _
  simp

theorem convertFinishReason_some (s : Str) (h : s ≠ []) :
    convertFinishReason (some s) = some (finishReasonMapping (lowerStr s)) := by
  have : s.isEmpty = false := by simpa [List.isEmpty_iff] using h
  simp [convertFinishReason, this]

theorem lowerStr_ne_nil (s : Str) (h : s ≠ []) : lowerStr s ≠ [] := by
  cases s with
  | nil => exact absurd rfl h
  | cons c rest => simp [lowerStr]

/-- C3 (amended): `_convert_finish_reason` depends only on the lower-cased
reason; `tool_use` maps to `tool_calls`, the four completion reasons map
to `stop`, `max_tokens` to `length`, `content_filtered` to
`content_filter`, every other non-null *nonempty* reason maps to itself
lower-cased, and both a null and an empty reason map to null. -/
theorem convertFinishReason_table (s : Str) (h : s ≠ []) :
    convertFinishReason none = none ∧
    convertFinishReason (some []) = none ∧
    (∀ t : Str, lowerStr t = lowerStr s →
      convertFinishReason (some t) = convertFinishReason (some s)) ∧
    (lowerStr s = str ("tool_use") →
      convertFinishReason (some s) = some (str ("tool_calls"))) ∧
    ((lowerStr s = str ("finished") ∨ lowerStr s = str ("end_turn") ∨
      lowerStr s = str ("stop_sequence") ∨ lowerStr s = str ("complete")) →
      convertFinishReason (some s) = some (str ("stop"))) ∧
    (lowerStr s = str ("max_tokens") →
      convertFinishReason (some s) = some (str ("length"))) ∧
    (lowerStr s = str ("content_filtered") →
      convertFinishReason (some s) = some (str ("content_filter"))) ∧
    (lowerStr s ∉ [str ("tool_use"), str ("finished"), str ("end_turn"),
        str ("stop_sequence"), str ("complete"), str ("max_tokens"),
        str ("content_filtered")] →
      convertFinishReason (some s) = some (lowerStr s)) := by
  refine ⟨rfl, rfl, ?_, ?_, ?_, ?_, ?_, ?_⟩
  · intro t ht
    have htne : t ≠ [] := by
      intro hnil
      exact lowerStr_ne_nil s h (by rw [← ht, hnil]; rfl)
    rw [convertFinishReason_some t htne, convertFinishReason_some s h, ht]
  · intro hx
    rw [convertFinishReason_some s h, hx]
    decide
  · intro hx
    rcases hx with hx | hx | hx | hx <;> rw [convertFinishReason_some s h, hx] <;> decide
  · intro hx
    rw [convertFinishReason_some s h, hx]
    decide
  · intro hx
    rw [convertFinishReason_some s h, hx]
    decide
  · intro hx
    simp only [List.mem_cons, List.not_mem_nil, or_false, not_or] at hx
    obtain ⟨h1, h2, h3, h4, h5, h6, h7⟩ := hx
    rw [convertFinishReason_some s h]
    simp [finishReasonMapping, h1, h2, h3, h4, h5, h6, h7]

theorem convertFinishReason_table_witness :
    (str ("END_TURN") ≠ []) ∧
    convertFinishReason (some (str ("END_TURN"))) = some (str ("stop")) ∧
    convertFinishReason (some (str ("TOOL_USE"))) = some (str ("tool_calls")) ∧
    convertFinishReason (some (str ("max_tokens"))) = some (str ("length")) ∧
    convertFinishReason (some (str ("foo"))) = some (str ("foo")) :=
  ⟨by decide,
   (convertFinishReason_table (str ("END_TURN")) (by decide)).2.2.2.2.1
     (Or.inr (Or.inl (by decide))),
   (convertFinishReason_table (str ("TOOL_USE")) (by decide)).2.2.2.1 (by decide),
   (convertFinishReason_table (str ("max_tokens")) (by decide)).2.2.2.2.2.1 (by decide),
   (convertFinishReason_table (str ("foo")) (by decide)).2.2.2.2.2.2.2 (by decide)⟩

/-- C3 counterexample: the empty string is a non-null reason mapped to
null (Python falsiness of `""`), not to itself lower-cased as the claim
states. -/
theorem convertFinishReason_empty_cx :
    convertFinishReason (some []) ≠ some (lowerStr []) := by
  decide

/-- C8 (amended): for every complete non-streaming backend response whose
stop reason is not `tool_use`, `_create_response` builds a message with
role `assistant` whose text body is the *leading* content block's text
when the leading block is a text block, and the empty string otherwise
(later text blocks are not consulted). -/
theorem createResponse_body (content : List BBlock) (finish : Option Str)
    (h : finish ≠ some (str ("tool_use"))) :
    (createResponseMessage content finish).role = str ("assistant") ∧
    (∀ t rest, content = .text t :: rest →
      (createResponseMessage content finish).content = some t) ∧
    ((∀ t rest, content ≠ BBlock.text t :: rest) →
      (createResponseMessage content finish).content = some []) := by
  refine ⟨?_, ?_, ?_⟩
  · simp [createResponseMessage, h]
  · intro t rest hc
    subst hc
    simp [createResponseMessage, h]
  · intro hne
    cases content with
    | nil => simp [createResponseMessage, h]
    | cons b rest =>
      cases b with
      | text t => exact absurd rfl (hne t rest)
      | image f d => simp [createResponseMessage, h]
      | document f n d => simp [createResponseMessage, h]
      | toolUse a b c => simp [createResponseMessage, h]
      | toolResult a b c => simp [createResponseMessage, h]

theorem createResponse_body_witness :
    ((some (str ("end_turn")) : Option Str) ≠ some (str ("tool_use"))) ∧
    (createResponseMessage [.text (str ("ok"))] (some (str ("end_turn")))).role =
      str ("assistant") ∧
    (createResponseMessage [.text (str ("ok"))] (some (str ("end_turn")))).content =
      some (str ("ok")) :=
  ⟨by decide,
   (createResponse_body [.text (str ("ok"))] (some (str ("end_turn")))
     (by decide)).1,
   (createResponse_body [.text (str ("ok"))] (some (str ("end_turn")))
     (by decide)).2.1 (str ("ok")) [] rfl⟩

/-- C8 counterexample: with stop reason `end_turn` and content whose
first block is a tool-use block followed by a text block, the claim's
"first text content block" is `"hi"` but `_create_response` returns the
empty string (it only inspects `content[0]`). -/
theorem createResponse_body_cx :
    firstTextBlock
      [.toolUse (some (str ("i"))) (some (str ("f"))) .null, .text (str ("hi"))] =
      str ("hi") ∧
    (createResponseMessage
      [.toolUse (some (str ("i"))) (some (str ("f"))) .null, .text (str ("hi"))]
      (some (str ("end_turn")))).content ≠
      some (firstTextBlock
        [.toolUse (some (str ("i"))) (some (str ("f"))) .null,
         .text (str ("hi"))]) := by
  constructor
  · rfl
  · intro hcontra
    have : (some [] : Option Str) = some (str ("hi")) := hcontra
    simp [str] at this

/-- C4: interpretation of the function-execution result envelope, shared
verbatim by `chat` and `chat_stream`.  With the `success` field present:
on failure the tool-result content is the envelope's `message` and the
status is `error`; on success with `data_type` `"json"` or absent the
content wraps `results` under a `results` key (no status); on success
with any other `data_type` the `results` value is used verbatim; and
when `data_type` is `"image"` the byte payload at
`results["source"]["bytes"]` is base64-decoded in place. -/
theorem toolResult_envelope (results sv : JsonVal)
    (hs : objGet results (str ("success")) = some sv) :
    (pyTruthy sv = false → ∀ m, objGet results (str ("message")) = some m →
      toolResultPayload results = some (m, some (str ("error")))) ∧
    (pyTruthy sv = true →
      (objGet results (str ("data_type")) = none ∨
        objGet results (str ("data_type")) = some (.str (str ("json")))) →
      toolResultPayload results =
        (objGet results (str ("results"))).map
          (fun rv => (.obj [(str ("results"), rv)], none))) ∧
    (pyTruthy sv = true → ∀ dt, objGet results (str ("data_type")) = some dt →
      jsonEqStr dt (str ("json")) = false → jsonEqStr dt (str ("image")) = false →
      toolResultPayload results =
        (objGet results (str ("results"))).map (fun rv => (rv, none))) ∧
    (pyTruthy sv = true →
      objGet results (str ("data_type")) = some (.str (str ("image"))) →
      ∀ rv src b bs, objGet results (str ("results")) = some rv →
        objGet rv (str ("source")) = some src →
        objGet src (str ("bytes")) = some (.str b) →
        b64decode b = some bs →
        toolResultPayload results =
          some (objSet rv (str ("source"))
            (objSet src (str ("bytes")) (.bytes bs)), none)) := by
  refine ⟨?_, ?_, ?_, ?_⟩
  · intro hf m hm
    simp [toolResultPayload, hs, hf, hm]
  · intro ht hdt
    have hd : objGetD results (str ("data_type")) (.str (str ("json"))) =
        .str (str ("json")) := by
      rcases hdt with hdt | hdt <;> simp [objGetD, hdt]
    simp only [toolResultPayload, hs, ht, if_true, toolSuccessContent, hd]
    cases hr : objGet results (str ("results")) with
    | none => simp [jsonEqStr, hr]
    | some rv => simp [jsonEqStr, hr]
  · intro ht dt hdt hj hi
    have hd : objGetD results (str ("data_type")) (.str (str ("json"))) = dt := by
      simp [objGetD, hdt]
    have hd' : objGetD results (str ("data_type")) .null = dt := by
      simp [objGetD, hdt]
    simp only [toolResultPayload, hs, ht, if_true, toolSuccessContent, hd, hd', hj,
      Bool.false_eq_true, if_false]
    cases hr : objGet results (str ("results")) with
    | none => simp
    | some rv => simp [hi]
  · intro ht hdt rv src b bs hr hsrc hb hdec
    have hd : objGetD results (str ("data_type")) (.str (str ("json"))) =
        .str (str ("image")) := by
      simp [objGetD, hdt]
    have hd' : objGetD results (str ("data_type")) .null = .str (str ("image")) := by
      simp [objGetD, hdt]
    have hj : jsonEqStr (JsonVal.str (str ("image"))) (str ("json")) = false := by
      decide
    simp only [toolResultPayload, hs, ht, if_true, toolSuccessContent, hd, hd', hj,
      Bool.false_eq_true, if_false, hr]
    simp [jsonEqStr, imageDecodeInPlace, hsrc, hb, hdec]

theorem toolResult_envelope_witness :
    objGet (.obj [(str ("success"), .bool false),
        (str ("message"), .str (str ("boom")))]) (str ("success")) =
      some (.bool false) ∧
    toolResultPayload (.obj [(str ("success"), .bool false),
        (str ("message"), .str (str ("boom")))]) =
      some (.str (str ("boom")), some (str ("error"))) ∧
    toolResultPayload (.obj [(str ("success"), .bool true),
        (str ("results"), .num 7)]) =
      some (.obj [(str ("results"), .num 7)], none) :=
  ⟨rfl,
   (toolResult_envelope
     (.obj [(str ("success"), .bool false), (str ("message"), .str (str ("boom")))])
     (.bool false) rfl).1 rfl (.str (str ("boom"))) rfl,
   (toolResult_envelope
     (.obj [(str ("success"), .bool true), (str ("results"), .num 7)])
     (.bool true) rfl).2.1 rfl (Or.inl rfl)⟩

theorem parseMessagesFrom_append (parse : Str → Option JsonVal)
    (ms₁ : List OAIMessage) :
    ∀ (acc : List BMessage) (ms₂ : List OAIMessage),
      parseMessagesFrom parse acc (ms₁ ++ ms₂) =
        (parseMessagesFrom parse acc ms₁).bind
          (fun acc' => parseMessagesFrom parse acc' ms₂) := by
  induction ms₁ with
  | nil => intro acc ms₂; rfl
  | cons m rest ih =>
    intro acc ms₂
    show parseMessagesFrom parse acc (m :: (rest ++ ms₂)) = _
    simp only [parseMessagesFrom]
    cases convertStep parse acc m with
    | none => rfl
    | some acc' => exact ih acc' ms₂

theorem poisonText_isPrefixOf_ne_nil (t : Str)
    (h : poisonText.isPrefixOf t = true) : t ≠ [] := by
  intro hnil
  subst hnil
  simp [poisonText, List.isPrefixOf, str] at h

/-- C10: an assistant message whose text starts with the Relay
acceptable-use guard text is omitted by `_parse_messages`, and the most
recently converted preceding message is popped as well; when no converted
message precedes it, the conversion fails (the `pop()` raises). -/
theorem parseMessages_poison (parse : Str → Option JsonVal)
    (ms₁ ms₂ : List OAIMessage) (t : Str) (tcs : List ToolCallSpec)
    (hpois : poisonText.isPrefixOf t = true) :
    parseMessagesAux parse (ms₁ ++ .assistant (some t) tcs :: ms₂) =
      (parseMessagesAux parse ms₁).bind (fun acc =>
        if acc.isEmpty then none
        else parseMessagesFrom parse acc.dropLast ms₂) := by
  have htne : t ≠ [] := poisonText_isPrefixOf_ne_nil t hpois
  show parseMessagesFrom parse [] (ms₁ ++ .assistant (some t) tcs :: ms₂) = _
  rw [parseMessagesFrom_append]
  show (parseMessagesAux parse ms₁).bind _ = _
  cases parseMessagesAux parse ms₁ with
  | none => rfl
  | some acc =>
    show parseMessagesFrom parse acc (.assistant (some t) tcs :: ms₂) = _
    simp only [parseMessagesFrom, convertStep, htne, hpois, if_true,
      ne_eq, not_false_iff, if_pos]
    by_cases hacc : acc.isEmpty
    · simp [hacc]
    · simp [hacc]

theorem parseMessages_poison_witness :
    poisonText.isPrefixOf (poisonText ++ str (" x")) = true ∧
    parseMessagesAux parseNone
      ([.user (.s (str ("hi")))] ++
        .assistant (some (poisonText ++ str (" x"))) [] :: []) =
      (parseMessagesAux parseNone [.user (.s (str ("hi")))]).bind (fun acc =>
        if acc.isEmpty then none
        else parseMessagesFrom parseNone acc.dropLast []) ∧
    parseMessagesAux parseNone
      ([.user (.s (str ("hi")))] ++
        .assistant (some (poisonText ++ str (" x"))) [] :: []) = some [] :=
  ⟨isPrefixOf_append poisonText (str (" x")),
   parseMessages_poison parseNone [.user (.s (str ("hi")))] [] 
     (poisonText ++ str (" x")) [] (isPrefixOf_append poisonText (str (" x"))),
   (parseMessages_poison parseNone [.user (.s (str ("hi")))] []
     (poisonText ++ str (" x")) [] (isPrefixOf_append poisonText (str (" x")))).trans rfl⟩

theorem mem_assocPut {α : Type} (k : Str) (v : α) :
    ∀ (l : List (Str × α)) (p : Str × α),
      p ∈ assocPut k v l → p = (k, v) ∨ p ∈ l := by
  intro l
  induction l with
  | nil =>
    intro p hp
    simp [assocPut] at hp
    exact Or.inl hp
  | cons q rest ih =>
    obtain ⟨a, b⟩ := q
    intro p hp
    by_cases hk : a = k
    · subst hk
      rw [show assocPut a v ((a, b) :: rest) = (a, v) :: rest by
        simp [assocPut]] at hp
      rcases List.mem_cons.mp hp with hp | hp
      · exact Or.inl hp
      · exact Or.inr (List.mem_cons.mpr (Or.inr hp))
    · rw [show assocPut k v ((a, b) :: rest) = (a, b) :: assocPut k v rest by
        simp [assocPut, hk]] at hp
      rcases List.mem_cons.mp hp with hp | hp
      · exact Or.inr (List.mem_cons.mpr (Or.inl hp))
      · rcases ih p hp with hp | hp
        · exact Or.inl hp
        · exact Or.inr (List.mem_cons.mpr (Or.inr hp))

/-- Every reference-data entry accumulated from a result list either was
in the initial state or stems from a result scoring at least 0.5 whose
metadata carries the entry's title, with the stripped text. -/
theorem halfRat_eq_half : halfRat = (1 : Rat) / 2 := by
  show Rat.mk' 1 2 (by decide) (by decide) = (1 : Rat) / 2
  rw [Rat.mk'_eq_divInt, Rat.divInt_eq_div]
  norm_num

theorem kbCollect_mem (results : List RResult) :
    ∀ (st : List (Str × Str) × List (Str × RefEntry)) (p : Str × Str),
      p ∈ (kbCollect st results).1 → p ∈ st.1 ∨
        ∃ r ∈ results, halfRat ≤ r.score ∧ r.title = some p.1 ∧
          p.2 = pyStrip r.text := by
  induction results with
  | nil =>
    intro st p hp
    exact Or.inl hp
  | cons row rest ih =>
    intro st p hp
    rw [show kbCollect st (row :: rest) =
        kbCollect (if halfRat ≤ row.score then
          match row.title with
          | some t => (assocPut t (pyStrip row.text) st.1, assocPut t ⟨t, row.uri⟩ st.2)
          | none => st
        else st) rest from rfl] at hp
    by_cases hsc : halfRat ≤ row.score
    · cases htit : row.title with
      | none =>
        rw [if_pos hsc, htit] at hp
        rcases ih _ p hp with hp | ⟨r, hr, h1, h2, h3⟩
        · exact Or.inl hp
        · exact Or.inr ⟨r, List.mem_cons.mpr (Or.inr hr), h1, h2, h3⟩
      | some ttl =>
        rw [if_pos hsc, htit] at hp
        rcases ih _ p hp with hp | ⟨r, hr, h1, h2, h3⟩
        · rcases mem_assocPut ttl (pyStrip row.text) st.1 p hp with hp | hp
          · refine Or.inr ⟨row, List.mem_cons.mpr (Or.inl rfl), hsc, ?_, ?_⟩
            · rw [hp, htit]
            · rw [hp]
          · exact Or.inl hp
        · exact Or.inr ⟨r, List.mem_cons.mpr (Or.inr hr), h1, h2, h3⟩
    · rw [if_neg hsc] at hp
      rcases ih st p hp with hp | ⟨r, hr, h1, h2, h3⟩
      · exact Or.inl hp
      · exact Or.inr ⟨r, List.mem_cons.mpr (Or.inr hr), h1, h2, h3⟩

/-- C5: when the latest user message names a registered knowledge source
with an `@source` token, (a) every kept reference-data entry stems from a
retrieval result with relevance score at least 0.5 (carrying the entry's
title), (b) the step appends exactly the document blocks of the kept data
to the latest message, (c) with at most five distinct kept documents each
becomes a separate document block named by its title, and (d) with more
than five a single block named `combined` holds all kept text joined by
newlines. -/
theorem kb_augmentation (message : Str) (kb : KB) (msgs : List BMessage)
    (htrig : (pySplit message).contains ('@' :: kb.name) = true) :
    (∀ p ∈ (kbCollect ([], []) kb.results).1,
      ∃ r ∈ kb.results, (1 : Rat) / 2 ≤ r.score ∧ r.title = some p.1 ∧
        p.2 = pyStrip r.text) ∧
    kbStep message ([], [], msgs) kb =
      ((kbCollect ([], []) kb.results).1, (kbCollect ([], []) kb.results).2,
        appendLastContent msgs (kbDocBlocks (kbCollect ([], []) kb.results).1)) ∧
    ((kbCollect ([], []) kb.results).1.length ≤ 5 →
      (kbDocBlocks (kbCollect ([], []) kb.results).1).map docName =
        (kbCollect ([], []) kb.results).1.map (fun p => p.1)) ∧
    (5 < (kbCollect ([], []) kb.results).1.length →
      kbDocBlocks (kbCollect ([], []) kb.results).1 =
        [.document (str ("txt")) (str ("combined"))
          (List.intercalate (str ("\n"))
            ((kbCollect ([], []) kb.results).1.map (fun p => p.2)))]) := by
  refine ⟨?_, ?_, ?_, ?_⟩
  · intro p hp
    rcases kbCollect_mem kb.results ([], []) p hp with hp | ⟨r, hr, h1, h2, h3⟩
    · exact absurd hp (List.not_mem_nil p)
    · exact ⟨r, hr, halfRat_eq_half ▸ h1, h2, h3⟩
  · show (if (pySplit message).contains ('@' :: kb.name) then _ else _) = _
    rw [if_pos htrig]
  · intro hlen
    simp [kbDocBlocks, hlen, docName, List.map_map, Function.comp]
  · intro hlen
    simp [kbDocBlocks, Nat.not_le.mpr hlen]

theorem kb_augmentation_witness :
    (pySplit (str ("@docs what is X"))).contains ('@' :: kbW.name) = true ∧
    (kbDocBlocks (kbCollect ([], []) kbW.results).1).map docName =
      (kbCollect ([], []) kbW.results).1.map (fun p => p.1) ∧
    (kbDocBlocks (kbCollect ([], []) kbW.results).1).map docName = [str ("A")] := by
  refine ⟨rfl, ?_, ?_⟩
  · exact (kb_augmentation (str ("@docs what is X")) kbW
      [⟨str ("user"), .l [.text (str ("@docs what is X"))]⟩] rfl).2.2.1 (by decide)
  · exact ((kb_augmentation (str ("@docs what is X")) kbW
      [⟨str ("user"), .l [.text (str ("@docs what is X"))]⟩] rfl).2.2.1
        (by decide)).trans (by decide)

/-- C2 (amended): in `chat_stream`, when the accumulated tool-argument
buffer is *nonempty* and fails to parse as JSON, the remainder of the
outward stream is exactly one synthetic assistant-text delta (describing
the parse failure, finish reason `stop`) followed immediately by the
stream terminator; the function-execution service is not invoked and no
continuation request is recursed on. -/
theorem stream_parse_failure (parse : Str → Option JsonVal) (lambdaRaw : Str)
    (req : ChatRequestM) (toolName toolUseId : Option Str)
    (toolArgs : List Str)
    (hne : toolArgs ≠ [])
    (hbad : parse toolArgs.flatten = none) :
    streamToolCallsBranch parse lambdaRaw req toolName toolUseId toolArgs =
      { events := [.chunk (some (str ("assistant")))
          (some (parseFailContent toolName toolArgs.flatten))
          (some (str ("stop"))), .done]
        lambdaCalls := 0
        continuation := none } := by
  have hE : toolArgs.isEmpty = false := by simpa [List.isEmpty_iff] using hne
  simp only [streamToolCallsBranch, hE, Bool.false_eq_true, if_false, hbad]

theorem stream_parse_failure_witness :
    (([str ("un")] : List Str) ≠ []) ∧
    parseNone (List.flatten [str ("un")]) = none ∧
    streamToolCallsBranch parseNone (str ("")) reqW (some (str ("t")))
        (some (str ("id"))) [str ("un")] =
      { events := [.chunk (some (str ("assistant")))
          (some (parseFailContent (some (str ("t")))
            (List.flatten [str ("un")]))) (some (str ("stop"))), .done]
        lambdaCalls := 0
        continuation := none } :=
  ⟨by decide, rfl,
   stream_parse_failure parseNone (str ("")) reqW (some (str ("t")))
     (some (str ("id"))) [str ("un")] (by decide) rfl⟩

/-- C2 counterexample: with no accumulated argument fragments the buffer
is the empty string, which is itself invalid JSON (`json.loads("")`
raises); yet the branch never parses it, treats the call as having no
arguments, and invokes the function-execution service instead of
emitting the synthetic failure delta. -/
theorem stream_parse_failure_cx :
    parseNone (List.flatten ([] : List Str)) = none ∧
    (streamToolCallsBranch parseNone (str ("x")) reqW (some (str ("t")))
        (some (str ("id"))) []).lambdaCalls = 1 :=
  ⟨rfl, rfl⟩

theorem parseRequest_eq_buildPayload (parse : Str → Option JsonVal)
    (tools : List ToolSpec) (req : ChatRequestM) (base : Payload)
    (hb : parseRequest parse tools req = some base) :
    ∃ msgs, parseMessages parse req = some msgs ∧
      base = buildPayload tools req msgs := by
  cases h : parseMessages parse req with
  | none => rw [parseRequest, h] at hb; exact absurd hb (by simp)
  | some msgs =>
    rw [parseRequest, h] at hb
    exact ⟨msgs, rfl, (Option.some.inj hb).symm⟩

/-- C7 (amended): whenever some converted backend message's leading
content block contains `@tools` (in particular whenever the request's
trailing user text carries the token), `_parse_request` attaches the tool
configuration, which is exactly the cached tool schema with each tool's
internal dispatch target (`lambda_arn`) removed before transmission. -/
theorem tools_directive (parse : Str → Option JsonVal) (tools : List ToolSpec)
    (req : ChatRequestM) (base : Payload)
    (hb : parseRequest parse tools req = some base)
    (hm : base.messages.any
      (fun m => pyIn (str ("@tools")) (msgFirstText m)) = true) :
    base.toolConfig = some (toolsConfig tools) ∧
    toolsConfig tools =
      tools.map (fun t => ⟨t.name, t.description, t.inputSchema⟩) := by
  obtain ⟨msgs, hpm, hbase⟩ := parseRequest_eq_buildPayload parse tools req base hb
  constructor
  · have hm' : msgs.any (fun m => pyIn (str ("@tools")) (msgFirstText m)) = true := by
      rw [hbase] at hm
      exact hm
    rw [hbase]
    show (if msgs.any (fun m => pyIn (str ("@tools")) (msgFirstText m)) then
        some (toolsConfig tools) else none) = some (toolsConfig tools)
    rw [if_pos hm']
  · rfl

theorem tools_directive_witness :
    parseRequest parseNone toolsW reqT7 =
      some (buildPayload toolsW reqT7
        [⟨str ("user"), .l [.text (str ("@tools hi"))]⟩]) ∧
    (buildPayload toolsW reqT7
      [⟨str ("user"), .l [.text (str ("@tools hi"))]⟩]).toolConfig =
      some (toolsConfig toolsW) :=
  ⟨rfl,
   (tools_directive parseNone toolsW reqT7
     (buildPayload toolsW reqT7 [⟨str ("user"), .l [.text (str ("@tools hi"))]⟩])
     rfl rfl).1⟩

/-- C7 counterexample: the latest user content carries the `@tools`
directive token in its second text part, yet `_parse_request` (which only
inspects each message's leading content block) attaches no tool
configuration. -/
theorem tools_directive_cx :
    latestUserContainsToken (str ("@tools")) reqC7 = true ∧
    payloadToolConfigOf (parseRequest parseNone toolsW reqC7) = some none :=
  ⟨rfl, rfl⟩

/-- C6 (amended): whenever the final converted backend message's leading
content block carries `@thinking` as a whitespace-delimited token (in
particular whenever the request ends with such a user message), the
backend invocation payload includes the extended-reasoning option
(thinking enabled, budget 10000) and omits the top-p sampling parameter
from its inference configuration. -/
theorem thinking_directive (parse : Str → Option JsonVal) (tools : List ToolSpec)
    (kbs : List KB) (guard : Option GuardCfg) (req : ChatRequestM)
    (base : Payload) (lm : BMessage)
    (hb : parseRequest parse tools req = some base)
    (hl : base.messages.getLast? = some lm)
    (ht : (pySplit (msgFirstText lm)).contains (str ("@thinking")) = true) :
    payloadThinkingOf (invokeArgs parse tools kbs guard req) =
      some (some thinkingEnabled) ∧
    payloadTopPOf (invokeArgs parse tools kbs guard req) = some none := by
  obtain ⟨msgs, hpm, hbase⟩ := parseRequest_eq_buildPayload parse tools req base hb
  have hmem : lm ∈ base.messages := List.mem_of_getLast?_eq_some hl
  have htok : str ("@thinking") ∈ pySplit (msgFirstText lm) := by
    have : (pySplit (msgFirstText lm)).elem (str ("@thinking")) = true := ht
    exact List.elem_iff.mp this
  have hsub : pyIn (str ("@thinking")) (msgFirstText lm) = true :=
    pyIn_of_mem_pySplit _ _ htok
  have hany : msgs.any (fun m => pyIn (str ("@thinking")) (msgFirstText m)) = true := by
    apply List.any_eq_true.mpr
    refine ⟨lm, ?_, hsub⟩
    rw [hbase] at hmem
    exact hmem
  have htop : base.inferenceConfig.topP = none := by
    rw [hbase]
    show (if msgs.any (fun m => pyIn (str ("@thinking")) (msgFirstText m)) then none
      else req.top_p) = none
    rw [if_pos hany]
  constructor
  · simp only [payloadThinkingOf, invokeArgs, hb, hl]
    simp [ht, htok]
  · simp only [payloadTopPOf, invokeArgs, hb, hl]
    simp [htop]

theorem thinking_directive_witness :
    parseRequest parseNone [] reqT6 =
      some (buildPayload [] reqT6
        [⟨str ("user"), .l [.text (str ("@thinking hi"))]⟩]) ∧
    payloadThinkingOf (invokeArgs parseNone [] [] none reqT6) =
      some (some thinkingEnabled) ∧
    payloadTopPOf (invokeArgs parseNone [] [] none reqT6) = some none :=
  ⟨rfl,
   (thinking_directive parseNone [] [] none reqT6
     (buildPayload [] reqT6 [⟨str ("user"), .l [.text (str ("@thinking hi"))]⟩])
     ⟨str ("user"), .l [.text (str ("@thinking hi"))]⟩ rfl rfl rfl).1,
   (thinking_directive parseNone [] [] none reqT6
     (buildPayload [] reqT6 [⟨str ("user"), .l [.text (str ("@thinking hi"))]⟩])
     ⟨str ("user"), .l [.text (str ("@thinking hi"))]⟩ rfl rfl rfl).2⟩

/-- C6 counterexample: the latest user message carries the `@thinking`
directive token, but the conversation ends with an assistant message, so
`_invoke_bedrock` (which reads only the final message's leading text)
does not attach the extended-reasoning option — while top-p is still
removed, falsifying the claimed conjunction. -/
theorem thinking_directive_cx :
    latestUserHasToken (str ("@thinking")) reqC6 = true ∧
    payloadThinkingOf (invokeArgs parseNone [] [] none reqC6) = some none ∧
    (some none : Option (Option ThinkingCfg)) ≠ some (some thinkingEnabled) :=
  ⟨rfl, rfl, by decide⟩
